import Mathlib

/-!
Verification of the `partial_date` library (`partial_date/fields.py`).

The development shallowly embeds the module: `datetime.date` values become the
`Date` structure together with the validity check that the CPython constructor
enforces, the two module-level regular expressions become executable matchers
on character lists, `PartialDate` becomes a structure of a date and an integer
precision, and the Django field adapter's `get_prep_value` becomes a function
on an inductive of its possible inputs.  Fallible Python code (constructors
raising `ValueError`, parsing raising `ValidationError`) is embedded with
`Except`.
-/

namespace PartialDateSpec

/-- Leap-year test of the proleptic Gregorian calendar used by
`datetime.date`. -/
def isLeapYear (y : Nat) : Bool :=
  (y % 4 == 0 && y % 100 != 0) || (y % 400 == 0)

/-- Number of days in a month, as enforced by the `datetime.date`
constructor. -/
def daysInMonth (y m : Nat) : Nat :=
  if m == 2 then (if isLeapYear y then 29 else 28)
  else if m == 4 || m == 6 || m == 9 || m == 11 then 30
  else 31

/-- A `datetime.date` value: a year, month and day. -/
structure Date where
  year : Nat
  month : Nat
  day : Nat
deriving DecidableEq, Repr

/-- The validity condition checked by the `datetime.date` constructor:
`MINYEAR = 1 <= year <= MAXYEAR = 9999`, `1 <= month <= 12` and
`1 <= day <= days in that month`. -/
def Date.validB (d : Date) : Bool :=
  decide (1 ≤ d.year) && decide (d.year ≤ 9999) &&
  decide (1 ≤ d.month) && decide (d.month ≤ 12) &&
  decide (1 ≤ d.day) && decide (d.day ≤ daysInMonth d.year d.month)

/-- The `datetime.date(year, month, day)` constructor: yields the date or
raises `ValueError` (embedded as `Except.error ()`). -/
def mkDate (y m d : Nat) : Except Unit Date :=
  if (Date.mk y m d).validB then Except.ok ⟨y, m, d⟩ else Except.error ()

/-- `datetime.date.replace(day=day)`: returns a NEW date, the receiver is
unchanged. -/
def Date.replaceDay (d : Date) (day : Nat) : Date :=
  ⟨d.year, d.month, day⟩

/-- `datetime.date.replace(month=month, day=day)`: returns a NEW date, the
receiver is unchanged. -/
def Date.replaceMonthDay (d : Date) (month day : Nat) : Date :=
  ⟨d.year, month, day⟩

/-- Python `date` comparison `a <= b`: lexicographic on (year, month, day). -/
def Date.le (a b : Date) : Bool :=
  decide (a.year < b.year) ||
  (decide (a.year = b.year) &&
    (decide (a.month < b.month) ||
      (decide (a.month = b.month) && decide (a.day ≤ b.day))))

/-- Value of an ASCII digit character (`int` applied to a one-digit string). -/
def dval (c : Char) : Nat := c.toNat - 48

/-- The regex class `\d`, restricted to ASCII as used by all the claims. -/
def isDig (c : Char) : Bool := decide (48 ≤ c.toNat) && decide (c.toNat ≤ 57)

/-- The regex class `\s` (ASCII part). -/
def isSpace (c : Char) : Bool :=
  c == ' ' || c == '\t' || c == '\n' || c == '\r' || c == '\x0b' || c == '\x0c'

/-- ASCII lowering, modelling `re.IGNORECASE` for the letters that occur in
the circa pattern. -/
def lowerA (c : Char) : Char :=
  if 65 ≤ c.toNat ∧ c.toNat ≤ 90 then Char.ofNat (c.toNat + 32) else c

/-- `int` applied to a non-empty decimal digit string. -/
def digitsToNat (cs : List Char) : Nat :=
  cs.foldl (fun a c => a * 10 + dval c) 0

/-- Strip a literal pattern from the front of a character list, returning the
remainder on success. -/
def stripPre : List Char → List Char → Option (List Char)
  | [], rest => some rest
  | _ :: _, [] => none
  | p :: ps, c :: cs => if c = p then stripPre ps cs else none

/-- The `\s*(?P<year>\d+)$` tail of the circa regex, applied after the
alternation: optional whitespace, then one or more digits running to the end
of the string; returns the digits of the `year` group. -/
def circaTail (rest : List Char) : Option (List Char) :=
  let ds := rest.dropWhile isSpace
  if ds.length != 0 && ds.all isDig then some ds else none

/-- One alternative of the circa regex: the literal alternative `pre` followed
by the tail. -/
def circaAtt (pre cs : List Char) : Option (List Char) :=
  match stripPre pre cs with
  | some rest => circaTail rest
  | none => none

/-- Matcher for `partial_date_re_circa`, the anchored regex
`(circa|c\.?)\s*(?P<year>\d+)` compiled with `re.IGNORECASE`: tries the
alternatives `circa`, `c.`, `c` on the lowered input in the regex's
backtracking order.  Returns the digits of the `year` group. -/
def circaMatch (s : String) : Option (List Char) :=
  let cs := s.toList.map lowerA
  (circaAtt ['c', 'i', 'r', 'c', 'a'] cs).orElse fun _ =>
    (circaAtt ['c', '.'] cs).orElse fun _ => circaAtt ['c'] cs

/-- Split a character list at every `'-'`; the resulting segments never
contain `'-'` and the list of segments is never empty. -/
def splitDash : List Char → List (List Char)
  | [] => [[]]
  | c :: rest =>
    if c = '-' then [] :: splitDash rest
    else
      match splitDash rest with
      | [] => [[c]]
      | h :: t => (c :: h) :: t

/-- Year group of `partial_date_re`: `\d+`. -/
def yearOk (cs : List Char) : Bool := decide (1 ≤ cs.length) && cs.all isDig

/-- Month or day group of `partial_date_re`: `\d{1,2}`. -/
def segOk (cs : List Char) : Bool :=
  decide (1 ≤ cs.length) && decide (cs.length ≤ 2) && cs.all isDig

/-- Matcher for `partial_date_re`, the anchored regex
`(?P<year>\d+)(?:-(?P<month>\d{1,2}))?(?:-(?P<day>\d{1,2}))?`.  A string
matches exactly when splitting it at `'-'` yields a `\d+` year segment
followed by at most two `\d{1,2}` segments; the returned triple holds the
`year`, `month` and `day` groups. -/
def plainMatch (s : String) :
    Option (List Char × Option (List Char) × Option (List Char)) :=
  match splitDash s.toList with
  | [y] => if yearOk y then some (y, none, none) else none
  | [y, m] => if yearOk y && segOk m then some (y, some m, none) else none
  | [y, m, d] =>
    if yearOk y && segOk m && segOk d then some (y, some m, some d) else none
  | _ => none

/-- The two ways `PartialDate.parse_date` can raise: the `ValidationError`
built in the `except` clause (carrying its rendered message) and an uncaught
`ValueError` escaping from `datetime.date` in the circa branch. -/
inductive ParseErr where
  | validationError (msg : String)
  | valueError
deriving DecidableEq, Repr

/-- ASCII apostrophe used by the rendered Django error message. -/
def quoteChar : String := String.singleton (Char.ofNat 39)

/-- The rendered message of the `ValidationError` raised by
`PartialDate.parse_date`. -/
def validationMsg (value : String) : String :=
  quoteChar ++ value ++ quoteChar ++
    " is not a valid date string (YYYY, YYYY-MM, YYYY-MM-DD, c. YYYY, circa YYYY)"

/-- Precision tag `PartialDate.YEAR`. -/
def YEAR : Int := 0
/-- Precision tag `PartialDate.MONTH`. -/
def MONTH : Int := 1
/-- Precision tag `PartialDate.DAY`. -/
def DAY : Int := 2
/-- Precision tag `PartialDate.CIRCA`. -/
def CIRCA : Int := 3

/-- The group value defaulting of `parse_date`: a present group is converted
with `int`, an absent group defaults to `1`. -/
def groupVal : Option (List Char) → Nat
  | some cs => digitsToNat cs
  | none => 1

/-- `PartialDate.parse_date`.  The circa pattern is tried first; on a match
the date is built OUTSIDE the `try` block, so a `ValueError` for an
out-of-range year escapes uncaught.  Otherwise the plain pattern is tried
inside the `try` block: a failed match (`AttributeError` on `None.groupdict`)
or an invalid calendar date (`ValueError`) is turned into a
`ValidationError`. -/
def parse_date (value : String) : Except ParseErr (Date × Int) :=
  match circaMatch value with
  | some y =>
    match mkDate (digitsToNat y) 1 1 with
    | Except.ok d => Except.ok (d, CIRCA)
    | Except.error _ => Except.error ParseErr.valueError
  | none =>
    match plainMatch value with
    | some (y, mo, dy) =>
      match mkDate (digitsToNat y) (groupVal mo) (groupVal dy) with
      | Except.ok d =>
        Except.ok (d, if dy.isSome then DAY else if mo.isSome then MONTH else YEAR)
      | Except.error _ =>
        Except.error (ParseErr.validationError (validationMsg value))
    | none => Except.error (ParseErr.validationError (validationMsg value))

/-- The `PartialDate` object: a stored `datetime.date` and a stored precision
integer. -/
structure PartialDate where
  date : Date
  precision : Int
deriving DecidableEq, Repr

/-- The coercion performed by the `precision` setter: a value outside the four
recognized tags silently becomes `DAY`. -/
def coercePrecision (v : Int) : Int :=
  if v = YEAR ∨ v = MONTH ∨ v = DAY ∨ v = CIRCA then v else DAY

/-- The `precision` setter.  After storing the coerced tag it evaluates
`self._date.replace(day=1)` (for `MONTH`) or
`self._date.replace(month=1, day=1)` (for `YEAR`/`CIRCA`) but never stores
the result — `replace` is non-mutating — so the stored date is unchanged in
every branch. -/
def PartialDate.setPrecision (p : PartialDate) (v : Int) : PartialDate :=
  let prec := coercePrecision v
  let newDate :=
    if prec = MONTH then
      let _discarded := p.date.replaceDay 1
      p.date
    else if prec = YEAR ∨ prec = CIRCA then
      let _discarded := p.date.replaceMonthDay 1 1
      p.date
    else p.date
  { date := newDate, precision := prec }

/-- `PartialDate.__init__` on a `datetime.date` argument: the `date` setter
stores the date (its `isinstance` check always passes for a date) and the
`precision` setter processes the precision argument. -/
def PartialDate.fromDate (d : Date) (precision : Int) : PartialDate :=
  PartialDate.setPrecision { date := d, precision := DAY } precision

/-- `PartialDate.__init__` on a string argument: `parse_date` supplies both
the date and the precision, which then go through the two setters. -/
def PartialDate.fromString (s : String) : Except ParseErr PartialDate :=
  match parse_date s with
  | Except.ok (d, prec) => Except.ok (PartialDate.fromDate d prec)
  | Except.error e => Except.error e

/-- Decimal digits of `n`, most significant first, produced with the fuel
pattern so that it evaluates by kernel reduction. -/
def natToDigitsAux : Nat → Nat → List Char → List Char
  | 0, n, acc => Nat.digitChar (n % 10) :: acc
  | fuel + 1, n, acc =>
    if n < 10 then Nat.digitChar (n % 10) :: acc
    else natToDigitsAux fuel (n / 10) (Nat.digitChar (n % 10) :: acc)

/-- Decimal representation of `n` without leading zeros: the output of
`strftime("%Y")` under glibc, which does not zero-pad the year. -/
def natRepr (n : Nat) : List Char := natToDigitsAux n n []

/-- Two-digit zero-padded decimal representation: the output of
`strftime("%m")` and `strftime("%d")`. -/
def pad2 (n : Nat) : List Char :=
  if n < 10 then '0' :: natRepr n else natRepr n

/-- `PartialDate.format` with the default templates `"%Y"`, `"%Y-%m"`,
`"%Y-%m-%d"` and `"c. %Y"`, checking the precision in the source's order:
year, month, circa, and day as the fallback.  `__repr__` is this same
function (the stored date is always set, so the empty-string branch of the
source is unreachable). -/
def PartialDate.format (p : PartialDate) : String :=
  if p.precision = YEAR then ⟨natRepr p.date.year⟩
  else if p.precision = MONTH then
    ⟨natRepr p.date.year ++ '-' :: pad2 p.date.month⟩
  else if p.precision = CIRCA then
    ⟨'c' :: '.' :: ' ' :: natRepr p.date.year⟩
  else
    ⟨natRepr p.date.year ++ '-' :: pad2 p.date.month ++ '-' :: pad2 p.date.day⟩

/-- `PartialDate.__eq__` against another `PartialDate`: identical date and
identical precision. -/
def PartialDate.beq (a b : PartialDate) : Bool :=
  decide (a.date = b.date) && decide (a.precision = b.precision)

/-- `PartialDate.__ge__` against another `PartialDate`:
`self.date >= other.date and self.precision >= other.precision`. -/
def PartialDate.ge (a b : PartialDate) : Bool :=
  Date.le b.date a.date && decide (b.precision ≤ a.precision)

/-- `PartialDate.__gt__` against another `PartialDate`:
`self.__ge__(other) and not self.__eq__(other)`. -/
def PartialDate.gt (a b : PartialDate) : Bool :=
  PartialDate.ge a b && !(PartialDate.beq a b)

/-- A Python `datetime.datetime` as produced by the field adapter; only the
fields the adapter sets are carried, with the `second` field keeping the
adapter's `Int`-typed precision. -/
structure PyDateTime where
  year : Nat
  month : Nat
  day : Nat
  hour : Nat
  minute : Nat
  second : Int
deriving DecidableEq, Repr

/-- The `datetime.datetime(year, month, day, hour, minute, second)`
constructor with its range validation (`ValueError` on failure). -/
def mkDateTime (y mo d hh mi : Nat) (ss : Int) : Except Unit PyDateTime :=
  if (Date.mk y mo d).validB && decide (hh ≤ 23) && decide (mi ≤ 59) &&
      decide (0 ≤ ss) && decide (ss ≤ 59) then
    Except.ok ⟨y, mo, d, hh, mi, ss⟩
  else Except.error ()

/-- The inputs `PartialDateField.get_prep_value` is specified for: `None`, a
string, or a `PartialDate` instance. -/
inductive FieldValue where
  | pyNone
  | str (s : String)
  | pd (p : PartialDate)
deriving DecidableEq, Repr

/-- `PartialDateField.get_prep_value`: `None` and `""` map to `None`;
otherwise `to_python` produces a `PartialDate` (parsing a string argument)
and a `datetime.datetime` is built from its date with the precision stored in
the seconds field. -/
def get_prep_value (value : FieldValue) : Except ParseErr (Option PyDateTime) :=
  match value with
  | FieldValue.pyNone => Except.ok none
  | FieldValue.str s =>
    if s = "" then Except.ok none
    else
      match PartialDate.fromString s with
      | Except.ok p =>
        match mkDateTime p.date.year p.date.month p.date.day 0 0 p.precision with
        | Except.ok dt => Except.ok (some dt)
        | Except.error _ => Except.error ParseErr.valueError
      | Except.error e => Except.error e
  | FieldValue.pd p =>
    match mkDateTime p.date.year p.date.month p.date.day 0 0 p.precision with
    | Except.ok dt => Except.ok (some dt)
    | Except.error _ => Except.error ParseErr.valueError

/-- Modelled from the spec: the claimed ordering, lexicographic on
`(date, precision)` — the date decides first and only on equal dates does the
precision rank decide. -/
def lexGe (a b : PartialDate) : Bool :=
  if a.date = b.date then decide (b.precision ≤ a.precision)
  else Date.le b.date a.date

/-- Modelled from the spec: canonicalization of a wire-format string
"zero-pads the month and day to two digits". -/
def padSeg (seg : List Char) : List Char :=
  if seg.length == 1 then '0' :: seg else seg

/-- Modelled from the spec: the canonical form of a wire-format string —
the month and day segments zero-padded to two digits, everything else
unchanged. -/
def canonical (s : String) : String :=
  match splitDash s.toList with
  | [y, m] => ⟨y ++ '-' :: padSeg m⟩
  | [y, m, d] => ⟨y ++ '-' :: padSeg m ++ '-' :: padSeg d⟩
  | _ => s

/-- Whether the year written in `s` (the digits of the circa year group, or
the first dash-separated segment) has no leading zero, so that it coincides
with its canonical decimal spelling. -/
def noLeadZeroYear (s : String) : Bool :=
  match circaMatch s with
  | some y => y.headD 'x' != '0'
  | none => ((splitDash s.toList).headD []).headD 'x' != '0'

/-- Inverse of `splitDash`: interleave the segments with `'-'`. -/
def joinDash : List (List Char) → List Char
  | [] => []
  | [x] => x
  | x :: xs => x ++ '-' :: joinDash xs

/-- The normalization property the spec claims as an invariant: day 1 under
MONTH precision, month 1 and day 1 under YEAR or CIRCA precision.  It holds
for every string-parsed value but not for every constructed one. -/
def normalizedB (p : PartialDate) : Bool :=
  if p.precision = MONTH then decide (p.date.day = 1)
  else if p.precision = YEAR ∨ p.precision = CIRCA then
    decide (p.date.month = 1) && decide (p.date.day = 1)
  else true

/-- Discriminator: did an embedded parse end in the `ValidationError` raise of
the source's `except` clause? -/
def isValidationFailure : Except ParseErr (Date × Int) → Bool
  | Except.error (ParseErr.validationError _) => true
  | _ => false

/-! ## Theorems -/

/-- Claim C1 (counterexample): parsing produces
`PartialDate(2020-01-01, CIRCA)` and `PartialDate(2020-06-15, DAY)`, and
`__ge__` on this pair returns `False`, not `True` as claimed: the date
conjunct `2020-01-01 >= 2020-06-15` already fails. -/
theorem C1_counterexample :
    PartialDate.fromString "circa 2020" = Except.ok ⟨⟨2020, 1, 1⟩, 3⟩ ∧
    PartialDate.fromString "2020-06-15" = Except.ok ⟨⟨2020, 6, 15⟩, 2⟩ ∧
    PartialDate.ge ⟨⟨2020, 1, 1⟩, 3⟩ ⟨⟨2020, 6, 15⟩, 2⟩ = false :=
  ⟨rfl, rfl, by decide⟩

/-- Claim C1 (amended): `PartialDate("circa 2020") >= PartialDate("2020-06-15")`
returns `False`: although CIRCA's rank (3) exceeds DAY's rank (2), `__ge__`
also requires `self.date >= other.date`, and the circa value's normalized
date 2020-01-01 is smaller than 2020-06-15. -/
theorem C1_theorem :
    (do
      let a ← PartialDate.fromString "circa 2020"
      let b ← PartialDate.fromString "2020-06-15"
      pure (PartialDate.ge a b, decide (b.precision ≤ a.precision),
        Date.le b.date a.date))
      = Except.ok (false, true, false) := rfl

/-- Claim C2 (counterexample): for `a = PartialDate("2020-06-15")` and
`b = PartialDate("circa 2020")` the claimed lexicographic order makes
`a >= b` true (the dates already differ), but the code's `__ge__` returns
`False` because it also requires `a.precision >= b.precision` even though the
dates are unequal. -/
theorem C2_counterexample :
    PartialDate.fromString "2020-06-15" = Except.ok ⟨⟨2020, 6, 15⟩, 2⟩ ∧
    PartialDate.fromString "circa 2020" = Except.ok ⟨⟨2020, 1, 1⟩, 3⟩ ∧
    lexGe ⟨⟨2020, 6, 15⟩, 2⟩ ⟨⟨2020, 1, 1⟩, 3⟩ = true ∧
    PartialDate.ge ⟨⟨2020, 6, 15⟩, 2⟩ ⟨⟨2020, 1, 1⟩, 3⟩ = false :=
  ⟨rfl, rfl, by decide, by decide⟩

/-- Claim C2 (amended): `__ge__` is the PRODUCT order, not the lexicographic
one: `a >= b` holds iff `a.date >= b.date` (lexicographically on year, month,
day) AND `a.precision >= b.precision`; `a > b` is `a >= b` and not `a == b`.
Only when the dates are equal is the result decided by the precision rank
alone. -/
theorem C2_theorem (a b : PartialDate) :
    (PartialDate.ge a b = true ↔
      ((b.date.year < a.date.year ∨
        (b.date.year = a.date.year ∧
          (b.date.month < a.date.month ∨
            (b.date.month = a.date.month ∧ b.date.day ≤ a.date.day)))) ∧
        b.precision ≤ a.precision)) ∧
    (PartialDate.gt a b = true ↔
      (PartialDate.ge a b = true ∧ PartialDate.beq a b = false)) ∧
    (a.date = b.date →
      (PartialDate.ge a b = true ↔ b.precision ≤ a.precision)) := by
  refine ⟨?_, ?_, ?_⟩
  · simp [PartialDate.ge, Date.le]
  · simp [PartialDate.gt]
  · intro h
    simp [PartialDate.ge, Date.le, h]

/-- Claim C2 (witness): on equal dates 2020-01-01, MONTH precision compares
`>=` against YEAR precision. -/
theorem C2_witness :
    PartialDate.ge ⟨⟨2020, 1, 1⟩, 1⟩ ⟨⟨2020, 1, 1⟩, 0⟩ = true :=
  ((C2_theorem ⟨⟨2020, 1, 1⟩, 1⟩ ⟨⟨2020, 1, 1⟩, 0⟩).2.2 rfl).mpr (by decide)

/-- Claim C3 (code evaluation at the failing input): constructing
`PartialDate(datetime.date(2020, 6, 15), precision)` stores the date
unchanged for every precision — the setter's `replace` results are discarded
— so the claimed normalization of day (for MONTH) and month/day (for
YEAR/CIRCA) does not happen. -/
theorem C3_theorem :
    (PartialDate.fromDate ⟨2020, 6, 15⟩ MONTH).precision = MONTH ∧
    (PartialDate.fromDate ⟨2020, 6, 15⟩ MONTH).date.day = 15 ∧
    (PartialDate.fromDate ⟨2020, 6, 15⟩ YEAR).date.month = 6 ∧
    (PartialDate.fromDate ⟨2020, 6, 15⟩ CIRCA).date.day = 15 := by
  decide

/-- Claim C6: constructing from a date with a precision outside the four
recognized tags, or assigning such a value to the precision attribute,
silently sets the precision to DAY; the construction raises no error and the
date is stored as given. -/
theorem C6_theorem (d : Date) (p : PartialDate) (v : Int)
    (h : ¬(v = YEAR ∨ v = MONTH ∨ v = DAY ∨ v = CIRCA)) :
    (PartialDate.fromDate d v).precision = DAY ∧
    (PartialDate.fromDate d v).date = d ∧
    (PartialDate.setPrecision p v).precision = DAY := by
  have hc : coercePrecision v = DAY := by rw [coercePrecision, if_neg h]
  refine ⟨?_, ?_, ?_⟩ <;>
    simp [PartialDate.fromDate, PartialDate.setPrecision, hc, YEAR, MONTH,
      DAY, CIRCA]

/-- Claim C6 (witness): precision 99 on date 2020-01-01. -/
theorem C6_witness :
    (PartialDate.fromDate ⟨2020, 1, 1⟩ 99).precision = DAY ∧
    (PartialDate.fromDate ⟨2020, 1, 1⟩ 99).date = ⟨2020, 1, 1⟩ ∧
    (PartialDate.setPrecision ⟨⟨2020, 1, 1⟩, 0⟩ 99).precision = DAY :=
  C6_theorem ⟨2020, 1, 1⟩ ⟨⟨2020, 1, 1⟩, 0⟩ 99 (by decide)

/-- Claim C10: assigning any value to the precision attribute leaves the
stored date unchanged — the setter's calls to the non-mutating `replace` are
discarded in both normalization branches. -/
theorem C10_theorem (p : PartialDate) (v : Int) :
    (PartialDate.setPrecision p v).date = p.date := by
  simp only [PartialDate.setPrecision]
  split <;> (try split) <;> rfl


/-! ### Facts about the matchers and the parser -/

/-- Inversion of a successful `datetime.date` construction. -/
theorem mkDate_ok (y m d : Nat) (dd : Date) (h : mkDate y m d = Except.ok dd) :
    dd = ⟨y, m, d⟩ ∧ (Date.mk y m d).validB = true := by
  unfold mkDate at h
  split at h
  · injection h with h1
    exact ⟨h1.symm, by assumption⟩
  · exact absurd h (by simp)

/-- `splitDash` never returns the empty list of segments. -/
theorem splitDash_ne_nil (cs : List Char) : splitDash cs ≠ [] := by
  cases cs with
  | nil => simp [splitDash]
  | cons c rest =>
    simp only [splitDash]
    split
    · simp
    · split <;> simp

/-- The first segment produced by `splitDash` starts with the first input
character when it is non-empty. -/
theorem splitDash_first_digit (cs y : List Char) (t : List (List Char))
    (hsd : splitDash cs = y :: t) (hy : yearOk y = true) :
    ∃ c t0, cs = c :: t0 ∧ isDig c = true := by
  simp only [yearOk, Bool.and_eq_true, decide_eq_true_eq] at hy
  cases cs with
  | nil =>
    simp only [splitDash] at hsd
    injection hsd with h1 h2
    rw [← h1] at hy
    simp at hy
  | cons c rest =>
    refine ⟨c, rest, rfl, ?_⟩
    simp only [splitDash] at hsd
    split at hsd
    · injection hsd with h1 h2
      rw [← h1] at hy
      simp at hy
    · split at hsd <;> injection hsd with h1 h2
      · rw [← h1] at hy
        simpa using hy.2
      · rw [← h1] at hy
        simp only [List.all_cons, Bool.and_eq_true] at hy
        exact hy.2.1

/-- Inversion of a successful plain-pattern match: the year group is a valid
`\d+` segment and heads the dash-split of the input. -/
theorem plainMatch_parts (s : String) (y : List Char)
    (mo dy : Option (List Char)) (h : plainMatch s = some (y, mo, dy)) :
    yearOk y = true ∧ ∃ t, splitDash s.toList = y :: t := by
  unfold plainMatch at h
  split at h
  · split at h
    · rename_i y1 heq hc
      simp only [Option.some.injEq, Prod.mk.injEq] at h
      obtain ⟨rfl, -, -⟩ := h
      exact ⟨hc, _, heq⟩
    · exact absurd h (by simp)
  · split at h
    · rename_i y1 m1 heq hc
      simp only [Option.some.injEq, Prod.mk.injEq] at h
      obtain ⟨rfl, -, -⟩ := h
      simp only [Bool.and_eq_true] at hc
      exact ⟨hc.1, _, heq⟩
    · exact absurd h (by simp)
  · split at h
    · rename_i y1 m1 d1 heq hc
      simp only [Option.some.injEq, Prod.mk.injEq] at h
      obtain ⟨rfl, -, -⟩ := h
      simp only [Bool.and_eq_true] at hc
      exact ⟨hc.1.1, _, heq⟩
    · exact absurd h (by simp)
  · exact absurd h (by simp)

/-- A string accepted by the plain pattern starts with an ASCII digit. -/
theorem plainMatch_head (s : String) (y : List Char)
    (mo dy : Option (List Char)) (h : plainMatch s = some (y, mo, dy)) :
    ∃ c t, s.toList = c :: t ∧ isDig c = true := by
  obtain ⟨hy, t3, ht3⟩ := plainMatch_parts s y mo dy h
  exact splitDash_first_digit s.toList y t3 ht3 hy

/-- A successful alternative of the circa regex pins the first character of
the (lowered) input to the first character of the alternative. -/
theorem circaAtt_head (p : Char) (ps cs y : List Char)
    (h : circaAtt (p :: ps) cs = some y) : ∃ rest, cs = p :: rest := by
  unfold circaAtt at h
  cases hs : stripPre (p :: ps) cs with
  | none => rw [hs] at h; exact absurd h (by simp)
  | some r =>
    cases cs with
    | nil => simp [stripPre] at hs
    | cons c cs2 =>
      simp only [stripPre] at hs
      split at hs
      · rename_i hcp
        exact ⟨cs2, by rw [hcp]⟩
      · exact absurd hs (by simp)

/-- The year group produced by a successful circa alternative is a non-empty
run of ASCII digits. -/
theorem circaAtt_tail (pre cs y : List Char) (h : circaAtt pre cs = some y) :
    y ≠ [] ∧ y.all isDig = true := by
  unfold circaAtt at h
  cases hs : stripPre pre cs with
  | none => rw [hs] at h; exact absurd h (by simp)
  | some r =>
    rw [hs] at h
    simp only [circaTail] at h
    split at h
    · rename_i hcond
      injection h with h1
      subst h1
      rw [Bool.and_eq_true, bne_iff_ne] at hcond
      exact ⟨fun hn => hcond.1 (by rw [hn]; rfl), hcond.2⟩
    · exact absurd h (by simp)

/-- Inversion of a successful circa match: the input starts with a character
lowering to `c`, and the year group is a non-empty digit run. -/
theorem circaMatch_inv (s : String) (y : List Char)
    (h : circaMatch s = some y) :
    (∃ c t, s.toList = c :: t ∧ lowerA c = 'c') ∧
      y ≠ [] ∧ y.all isDig = true := by
  simp only [circaMatch] at h
  have main : ∃ pre, circaAtt ('c' :: pre) (s.toList.map lowerA) = some y := by
    cases h1 : circaAtt ['c', 'i', 'r', 'c', 'a'] (s.toList.map lowerA) with
    | some z =>
      rw [h1] at h
      simp only [Option.orElse] at h
      injection h with h2
      exact ⟨['i', 'r', 'c', 'a'], by rw [h1, h2]⟩
    | none =>
      rw [h1] at h
      simp only [Option.orElse] at h
      cases h2 : circaAtt ['c', '.'] (s.toList.map lowerA) with
      | some z =>
        rw [h2] at h
        simp only [Option.orElse] at h
        injection h with h3
        exact ⟨['.'], by rw [h2, h3]⟩
      | none =>
        rw [h2] at h
        simp only [Option.orElse] at h
        exact ⟨[], h⟩
  obtain ⟨pre, hatt⟩ := main
  obtain ⟨rest, hrest⟩ := circaAtt_head 'c' pre (s.toList.map lowerA) y hatt
  refine ⟨?_, circaAtt_tail _ _ _ hatt⟩
  cases hsl : s.toList with
  | nil => rw [hsl] at hrest; simp at hrest
  | cons c t =>
    rw [hsl] at hrest
    simp only [List.map_cons] at hrest
    injection hrest with e1 e2
    exact ⟨c, t, rfl, e1⟩

/-- Lowering is the identity on ASCII digits. -/
theorem lowerA_isDig (c : Char) (h : isDig c = true) : lowerA c = c := by
  simp only [isDig, Bool.and_eq_true, decide_eq_true_eq] at h
  rw [lowerA, if_neg (by omega : ¬(65 ≤ c.toNat ∧ c.toNat ≤ 90))]

/-- The two regexes are disjoint: a circa match forces the first character to
lower to `c`, a plain match forces it to be a digit. -/
theorem circa_plain_disjoint (s : String) (y : List Char)
    (h : circaMatch s = some y) : plainMatch s = none := by
  cases hp : plainMatch s with
  | none => rfl
  | some r =>
    obtain ⟨⟨c, t, hs, hc⟩, -, -⟩ := circaMatch_inv s y h
    obtain ⟨ry, rmo, rdy⟩ := r
    obtain ⟨c2, t2, hs2, hd⟩ := plainMatch_head s ry rmo rdy hp
    rw [hs] at hs2
    injection hs2 with e1 e2
    rw [← e1] at hd
    rw [lowerA_isDig c hd] at hc
    subst hc
    exact absurd hd (by decide)

/-- Claim C7: on a plain-pattern match, `parse_date` returns precision DAY if
the day group is present, else MONTH if the month group is present, else
YEAR, and an absent month or day group defaults to 1 in the constructed
date; on a circa match it returns a date with month 1 and day 1 and
precision CIRCA. -/
theorem C7_theorem (s : String) (y : List Char) (mo dy : Option (List Char))
    (d : Date) (pr : Int) :
    (plainMatch s = some (y, mo, dy) → parse_date s = Except.ok (d, pr) →
      pr = (if dy.isSome then DAY else if mo.isSome then MONTH else YEAR) ∧
      (mo = none → d.month = 1) ∧ (dy = none → d.day = 1)) ∧
    (circaMatch s = some y → parse_date s = Except.ok (d, pr) →
      d.month = 1 ∧ d.day = 1 ∧ pr = CIRCA) := by
  constructor
  · intro hp hok
    have hcm : circaMatch s = none := by
      cases hcm2 : circaMatch s with
      | none => rfl
      | some z =>
        rw [circa_plain_disjoint s z hcm2] at hp
        exact absurd hp (by simp)
    simp only [parse_date, hcm, hp] at hok
    cases hmk : mkDate (digitsToNat y) (groupVal mo) (groupVal dy) with
    | ok dd =>
      rw [hmk] at hok
      simp only [Except.ok.injEq, Prod.mk.injEq] at hok
      obtain ⟨h1, h2⟩ := hok
      obtain ⟨hdd, -⟩ := mkDate_ok _ _ _ dd hmk
      subst h1
      subst hdd
      refine ⟨h2.symm, fun hn => ?_, fun hn => ?_⟩ <;> subst hn <;> rfl
    | error e =>
      rw [hmk] at hok
      exact absurd hok (by simp)
  · intro hcm hok
    simp only [parse_date, hcm] at hok
    cases hmk : mkDate (digitsToNat y) 1 1 with
    | ok dd =>
      rw [hmk] at hok
      simp only [Except.ok.injEq, Prod.mk.injEq] at hok
      obtain ⟨h1, h2⟩ := hok
      obtain ⟨hdd, -⟩ := mkDate_ok _ _ _ dd hmk
      subst h1
      subst hdd
      exact ⟨rfl, rfl, h2.symm⟩
    | error e =>
      rw [hmk] at hok
      exact absurd hok (by simp)

/-- Claim C7 (witness): `"c. 1850"` matches the circa pattern and parses to
1850-01-01 with precision CIRCA. -/
theorem C7_witness :
    Date.month ⟨1850, 1, 1⟩ = 1 ∧ Date.day ⟨1850, 1, 1⟩ = 1 ∧
      (3 : Int) = CIRCA :=
  ( C7_theorem "c. 1850" ['1', '8', '5', '0'] none none ⟨1850, 1, 1⟩ 3).2
    rfl rfl

/-- Claim C8 (counterexample): `"circa 0"` matches the circa pattern and its
year is not a valid calendar year, yet `parse_date` does NOT fail with the
validation error — the `ValueError` raised by `datetime.date` in the circa
branch escapes uncaught. -/
theorem C8_counterexample :
    (circaMatch "circa 0").isSome = true ∧
    mkDate 0 1 1 = Except.error () ∧
    parse_date "circa 0" = Except.error ParseErr.valueError ∧
    isValidationFailure (parse_date "circa 0") = false :=
  ⟨rfl, rfl, rfl, rfl⟩

/-- Claim C8 (amended): if a string matches neither pattern, or matches the
plain pattern with numeric fields that do not form a valid calendar date,
`parse_date` fails with the validation error whose message names the string
and enumerates the accepted formats; but if it matches the CIRCA pattern
with an out-of-range year, the `ValueError` from the date constructor
propagates instead of a validation error. -/
theorem C8_theorem (s : String) :
    (circaMatch s = none → plainMatch s = none →
      parse_date s = Except.error (ParseErr.validationError (validationMsg s))) ∧
    (∀ y mo dy, circaMatch s = none → plainMatch s = some (y, mo, dy) →
      mkDate (digitsToNat y) (groupVal mo) (groupVal dy) = Except.error () →
      parse_date s = Except.error (ParseErr.validationError (validationMsg s))) ∧
    (∀ y, circaMatch s = some y →
      mkDate (digitsToNat y) 1 1 = Except.error () →
      parse_date s = Except.error ParseErr.valueError) := by
  refine ⟨?_, ?_, ?_⟩
  · intro h1 h2
    simp only [parse_date, h1, h2]
  · intro y mo dy h1 h2 h3
    simp only [parse_date, h1, h2, h3]
  · intro y h1 h2
    simp only [parse_date, h1, h2]

/-- Claim C8 (witness): `"2020-13"` matches the plain pattern, month 13 is
rejected by the date constructor, and the validation error carries the
documented message. -/
theorem C8_witness :
    parse_date "2020-13" =
      Except.error (ParseErr.validationError (validationMsg "2020-13")) :=
  ( C8_theorem "2020-13").2.1 ['2', '0', '2', '0'] (some ['1', '3']) none
    rfl rfl rfl


/-! ### Facts about the constructor and the field adapter -/

/-- The coerced precision is always one of the four recognized tags. -/
theorem coercePrecision_mem (v : Int) :
    coercePrecision v = YEAR ∨ coercePrecision v = MONTH ∨
      coercePrecision v = DAY ∨ coercePrecision v = CIRCA := by
  unfold coercePrecision
  split
  · assumption
  · right; right; left; rfl

/-- The coercion fixes the four recognized tags. -/
theorem coercePrecision_id (v : Int)
    (h : v = YEAR ∨ v = MONTH ∨ v = DAY ∨ v = CIRCA) :
    coercePrecision v = v := by
  rw [coercePrecision, if_pos h]

/-- The precision setter stores the coerced tag. -/
theorem setPrecision_precision (p : PartialDate) (v : Int) :
    (PartialDate.setPrecision p v).precision = coercePrecision v := rfl

/-- The precision setter leaves the stored date unchanged (the `replace`
results are discarded). -/
theorem setPrecision_date (p : PartialDate) (v : Int) :
    (PartialDate.setPrecision p v).date = p.date := by
  simp only [PartialDate.setPrecision]
  split <;> (try split) <;> rfl

/-- The date-argument constructor stores the date unchanged. -/
theorem fromDate_date (d : Date) (v : Int) :
    (PartialDate.fromDate d v).date = d :=
  setPrecision_date ⟨d, DAY⟩ v

/-- The date-argument constructor stores the coerced precision. -/
theorem fromDate_precision (d : Date) (v : Int) :
    (PartialDate.fromDate d v).precision = coercePrecision v := rfl

/-- The precision returned by a successful parse is one of the four
recognized tags. -/
theorem parse_date_ok_precision (s : String) (d : Date) (pr : Int)
    (h : parse_date s = Except.ok (d, pr)) :
    (pr = YEAR ∨ pr = MONTH ∨ pr = DAY ∨ pr = CIRCA) ∧ d.validB = true := by
  unfold parse_date at h
  split at h
  · rename_i y hcm
    cases hmk : mkDate (digitsToNat y) 1 1 with
    | ok dd =>
      rw [hmk] at h
      simp only [Except.ok.injEq, Prod.mk.injEq] at h
      obtain ⟨h1, h2⟩ := h
      obtain ⟨hdd, hv⟩ := mkDate_ok _ _ _ dd hmk
      subst h1
      subst hdd
      exact ⟨Or.inr (Or.inr (Or.inr h2.symm)), hv⟩
    | error e =>
      rw [hmk] at h
      exact absurd h (by simp)
  · rename_i hcm
    split at h
    · rename_i y mo dy hp
      cases hmk : mkDate (digitsToNat y) (groupVal mo) (groupVal dy) with
      | ok dd =>
        rw [hmk] at h
        simp only [Except.ok.injEq, Prod.mk.injEq] at h
        obtain ⟨h1, h2⟩ := h
        obtain ⟨hdd, hv⟩ := mkDate_ok _ _ _ dd hmk
        subst h1
        subst hdd
        refine ⟨?_, hv⟩
        rw [← h2]
        by_cases hdy : dy.isSome
        · simp [hdy, DAY]
        · by_cases hmo : mo.isSome <;> simp [hdy, hmo, YEAR, MONTH]
      | error e =>
        rw [hmk] at h
        exact absurd h (by simp)
    · exact absurd h (by simp)

/-- A string-constructed `PartialDate` has a valid stored date and one of the
four recognized precision tags. -/
theorem fromString_ok (s : String) (q : PartialDate)
    (h : PartialDate.fromString s = Except.ok q) :
    q.date.validB = true ∧
      (q.precision = YEAR ∨ q.precision = MONTH ∨
        q.precision = DAY ∨ q.precision = CIRCA) := by
  unfold PartialDate.fromString at h
  cases hp : parse_date s with
  | ok r =>
    obtain ⟨d, pr⟩ := r
    obtain ⟨hmem, hv⟩ := parse_date_ok_precision s d pr hp
    rw [hp] at h
    injection h with h1
    subst h1
    rw [fromDate_date, fromDate_precision, coercePrecision_id pr hmem]
    exact ⟨hv, hmem⟩
  | error e =>
    rw [hp] at h
    exact absurd h (by simp)

/-- A `datetime.datetime` built from a valid date with a seconds value in
range constructs successfully. -/
theorem mkDateTime_ok (dd : Date) (ss : Int) (hd : dd.validB = true)
    (h0 : 0 ≤ ss) (h59 : ss ≤ 59) :
    mkDateTime dd.year dd.month dd.day 0 0 ss =
      Except.ok ⟨dd.year, dd.month, dd.day, 0, 0, ss⟩ := by
  have h1 : Date.mk dd.year dd.month dd.day = dd := rfl
  unfold mkDateTime
  rw [h1, hd]
  simp [h0, h59]

/-- A recognized precision tag is in the seconds range of
`datetime.datetime`. -/
theorem tag_seconds_range (v : Int)
    (h : v = YEAR ∨ v = MONTH ∨ v = DAY ∨ v = CIRCA) :
    0 ≤ v ∧ v ≤ 59 := by
  rcases h with h | h | h | h <;> subst h <;> constructor <;> decide

/-- Claim C9: `get_prep_value` maps `None` and `""` to a null value with no
error; for a `PartialDate` built from a valid date it emits a date-time
whose date part is the stored date and whose seconds field is the (coerced)
precision; likewise for any accepted non-empty string. -/
theorem C9_theorem (d : Date) (v : Int) (s : String) (q : PartialDate)
    (hd : d.validB = true) (hs : s ≠ "")
    (hq : PartialDate.fromString s = Except.ok q) :
    get_prep_value FieldValue.pyNone = Except.ok none ∧
    get_prep_value (FieldValue.str "") = Except.ok none ∧
    get_prep_value (FieldValue.pd (PartialDate.fromDate d v)) =
      Except.ok (some ⟨d.year, d.month, d.day, 0, 0, coercePrecision v⟩) ∧
    get_prep_value (FieldValue.str s) =
      Except.ok
        (some ⟨q.date.year, q.date.month, q.date.day, 0, 0, q.precision⟩) := by
  refine ⟨rfl, rfl, ?_, ?_⟩
  · have hrange := tag_seconds_range (coercePrecision v) (coercePrecision_mem v)
    simp only [get_prep_value, fromDate_date, fromDate_precision]
    rw [mkDateTime_ok d (coercePrecision v) hd hrange.1 hrange.2]
  · obtain ⟨hqv, hqmem⟩ := fromString_ok s q hq
    have hrange := tag_seconds_range q.precision hqmem
    simp only [get_prep_value, if_neg hs, hq,
      mkDateTime_ok q.date q.precision hqv hrange.1 hrange.2]

/-- Claim C9 (witness): on `None`, `""`, `PartialDate(2020-01-01, CIRCA)` and
the string `"2020"`. -/
theorem C9_witness :
    get_prep_value FieldValue.pyNone = Except.ok none ∧
    get_prep_value (FieldValue.str "") = Except.ok none ∧
    get_prep_value (FieldValue.pd (PartialDate.fromDate ⟨2020, 1, 1⟩ 3)) =
      Except.ok (some ⟨2020, 1, 1, 0, 0, coercePrecision 3⟩) ∧
    get_prep_value (FieldValue.str "2020") =
      Except.ok (some ⟨2020, 1, 1, 0, 0, (0 : Int)⟩) :=
  C9_theorem ⟨2020, 1, 1⟩ 3 "2020" ⟨⟨2020, 1, 1⟩, 0⟩ (by decide) (by decide)
    rfl


/-! ### Decimal digits: `int` of a digit string and `strftime`-style output -/

/-- `dval` inverts `Nat.digitChar` on single digits. -/
theorem dval_digitChar (k : Nat) (h : k < 10) : dval (Nat.digitChar k) = k := by
  interval_cases k <;> rfl

/-- `Nat.digitChar` of a single digit is an ASCII digit. -/
theorem isDig_digitChar (k : Nat) (h : k < 10) :
    isDig (Nat.digitChar k) = true := by
  interval_cases k <;> rfl

/-- `Nat.digitChar` inverts `dval` on ASCII digits. -/
theorem digitChar_dval (c : Char) (h : isDig c = true) :
    Nat.digitChar (dval c) = c := by
  simp only [isDig, Bool.and_eq_true, decide_eq_true_eq] at h
  obtain ⟨h1, h2⟩ := h
  obtain ⟨n, hn⟩ : ∃ n, c.toNat = n := ⟨c.toNat, rfl⟩
  rw [hn] at h1 h2
  have hc : c = Char.ofNat n := by rw [← hn, Char.ofNat_toNat]
  subst hc
  interval_cases n <;> decide

/-- An ASCII digit is at most 9 in value. -/
theorem dval_lt_ten (c : Char) (h : isDig c = true) : dval c < 10 := by
  simp only [isDig, Bool.and_eq_true, decide_eq_true_eq] at h
  unfold dval
  omega

/-- A character whose code is below 48 differs from any ASCII digit. -/
theorem isDig_ne_low (c : Char) (h : isDig c = true) :
    ∀ d : Char, d.toNat < 48 → c ≠ d := by
  simp only [isDig, Bool.and_eq_true, decide_eq_true_eq] at h
  intro d hd he
  subst he
  omega

/-- ASCII digits are not dashes. -/
theorem all_isDig_no_dash (xs : List Char) (h : xs.all isDig = true) :
    ∀ c ∈ xs, c ≠ '-' := by
  intro c hc
  have hd := List.all_eq_true.mp h c hc
  exact isDig_ne_low c hd '-' (by decide)

/-- ASCII digits are not whitespace. -/
theorem isDig_not_space (c : Char) (h : isDig c = true) : isSpace c = false := by
  have key := isDig_ne_low c h
  simp only [isSpace, Bool.or_eq_false_iff, beq_eq_false_iff_ne, ne_eq]
  exact ⟨⟨⟨⟨⟨key ' ' (by decide), key '\t' (by decide)⟩, key '\n' (by decide)⟩,
    key '\r' (by decide)⟩, key '\x0b' (by decide)⟩, key '\x0c' (by decide)⟩

/-- Lowering is the identity on a digit string. -/
theorem map_lowerA_digits (xs : List Char) (h : xs.all isDig = true) :
    xs.map lowerA = xs := by
  induction xs with
  | nil => rfl
  | cons c t ih =>
    simp only [List.all_cons, Bool.and_eq_true] at h
    simp [lowerA_isDig c h.1, ih h.2]

/-- `\s*` consumes nothing in front of a digit string. -/
theorem dropWhile_digits (ds : List Char) (h : ds.all isDig = true) :
    ds.dropWhile isSpace = ds := by
  cases ds with
  | nil => rfl
  | cons c t =>
    simp only [List.all_cons, Bool.and_eq_true] at h
    simp [List.dropWhile_cons, isDig_not_space c h.1]

/-- `int` of a one-character digit string. -/
theorem digitsToNat_one (c : Char) : digitsToNat [c] = dval c := by
  simp [digitsToNat]

/-- `int` of a two-character digit string. -/
theorem digitsToNat_two (c1 c2 : Char) :
    digitsToNat [c1, c2] = 10 * dval c1 + dval c2 := by
  simp only [digitsToNat, List.foldl_cons, List.foldl_nil]
  ring

/-- Appending a digit multiplies the value by ten and adds the digit. -/
theorem digitsToNat_append_digit (cs : List Char) (c : Char) :
    digitsToNat (cs ++ [c]) = 10 * digitsToNat cs + dval c := by
  unfold digitsToNat
  rw [List.foldl_append]
  simp [Nat.mul_comm]

/-- The fold underlying `digitsToNat` never decreases its accumulator. -/
theorem digitsToNat_acc_le (cs : List Char) :
    ∀ a, a ≤ cs.foldl (fun x c => x * 10 + dval c) a := by
  induction cs with
  | nil => intro a; simp
  | cons c t ih =>
    intro a
    simp only [List.foldl_cons]
    calc a ≤ a * 10 + dval c := by omega
    _ ≤ _ := ih _

/-- A digit string that does not start with `'0'` has a positive value. -/
theorem digitsToNat_pos (c : Char) (cs : List Char) (h : isDig c = true)
    (h0 : c ≠ '0') : 1 ≤ digitsToNat (c :: cs) := by
  have hne : c.toNat ≠ 48 := by
    intro he
    exact h0 (by rw [← Char.ofNat_toNat c, he])
  have h48 : 48 ≤ c.toNat := by
    simp only [isDig, Bool.and_eq_true, decide_eq_true_eq] at h
    exact h.1
  have h1 : 1 ≤ dval c := by unfold dval; omega
  calc 1 ≤ dval c := h1
  _ ≤ digitsToNat (c :: cs) := by
    have := digitsToNat_acc_le cs (dval c)
    simpa [digitsToNat] using this

/-- The accumulator of `natToDigitsAux` is a suffix of its output. -/
theorem natToDigitsAux_acc (fuel : Nat) :
    ∀ n acc, natToDigitsAux fuel n acc = natToDigitsAux fuel n [] ++ acc := by
  induction fuel with
  | zero => intro n acc; simp [natToDigitsAux]
  | succ f ih =>
    intro n acc
    simp only [natToDigitsAux]
    split
    · simp
    · rw [ih (n / 10) (Nat.digitChar (n % 10) :: acc),
        ih (n / 10) [Nat.digitChar (n % 10)]]
      simp

/-- `natToDigitsAux` ignores its fuel as long as there is enough of it. -/
theorem natToDigitsAux_fuel (f1 : Nat) :
    ∀ f2 n acc, n ≤ f1 → n ≤ f2 →
      natToDigitsAux f1 n acc = natToDigitsAux f2 n acc := by
  induction f1 with
  | zero =>
    intro f2 n acc h1 h2
    have hn : n = 0 := by omega
    subst hn
    cases f2 with
    | zero => rfl
    | succ f => simp [natToDigitsAux]
  | succ f ih =>
    intro f2 n acc h1 h2
    by_cases hn : n < 10
    · cases f2 with
      | zero =>
        have : n = 0 := by omega
        subst this
        simp [natToDigitsAux]
      | succ f2a => simp [natToDigitsAux, hn]
    · cases f2 with
      | zero => omega
      | succ f2a =>
        simp only [natToDigitsAux, if_neg hn]
        exact ih f2a (n / 10) _ (by omega) (by omega)

/-- Single-digit decimal representation. -/
theorem natRepr_small (n : Nat) (h : n < 10) :
    natRepr n = [Nat.digitChar n] := by
  unfold natRepr
  cases n with
  | zero => rfl
  | succ m => simp [natToDigitsAux, h, Nat.mod_eq_of_lt h]

/-- Unfolding of the decimal representation for numbers of two or more
digits. -/
theorem natRepr_ge10 (n : Nat) (h : 10 ≤ n) :
    natRepr n = natRepr (n / 10) ++ [Nat.digitChar (n % 10)] := by
  obtain ⟨m, rfl⟩ : ∃ m, n = m + 1 := ⟨n - 1, by omega⟩
  show natToDigitsAux (m + 1) (m + 1) [] = _
  rw [show natToDigitsAux (m + 1) (m + 1) [] =
      natToDigitsAux m ((m + 1) / 10) [Nat.digitChar ((m + 1) % 10)] from by
    simp only [natToDigitsAux]
    rw [if_neg (by omega)]]
  rw [natToDigitsAux_fuel m ((m + 1) / 10) ((m + 1) / 10)
    [Nat.digitChar ((m + 1) % 10)] (by omega) (by omega)]
  rw [natToDigitsAux_acc]
  rfl

/-- The decimal representation consists of ASCII digits. -/
theorem natToDigitsAux_digits (fuel : Nat) :
    ∀ n acc, acc.all isDig = true →
      (natToDigitsAux fuel n acc).all isDig = true := by
  induction fuel with
  | zero =>
    intro n acc h
    simp [natToDigitsAux, h, isDig_digitChar (n % 10) (by omega)]
  | succ f ih =>
    intro n acc h
    simp only [natToDigitsAux]
    split
    · simp [h, isDig_digitChar (n % 10) (by omega)]
    · exact ih _ _ (by simp [h, isDig_digitChar (n % 10) (by omega)])

/-- The decimal representation consists of ASCII digits. -/
theorem natRepr_digits (n : Nat) : (natRepr n).all isDig = true :=
  natToDigitsAux_digits n n [] rfl

/-- The decimal representation is non-empty. -/
theorem natRepr_ne_nil (n : Nat) : natRepr n ≠ [] := by
  by_cases h : n < 10
  · rw [natRepr_small n h]; simp
  · rw [natRepr_ge10 n (by omega)]; simp

/-- `int` inverts the decimal representation. -/
theorem digitsToNat_natRepr (n : Nat) : digitsToNat (natRepr n) = n := by
  induction n using Nat.strong_induction_on with
  | _ n ih =>
    by_cases h : n < 10
    · rw [natRepr_small n h, digitsToNat_one, dval_digitChar n h]
    · rw [natRepr_ge10 n (by omega), digitsToNat_append_digit,
        ih (n / 10) (by omega), dval_digitChar (n % 10) (by omega)]
      omega

/-- The decimal representation inverts `int` on digit strings without a
leading zero. -/
theorem natRepr_digitsToNat (cs : List Char) :
    cs ≠ [] → cs.all isDig = true → cs.headD 'x' ≠ '0' →
      natRepr (digitsToNat cs) = cs := by
  induction cs using List.reverseRecOn with
  | nil => intro h _ _; exact absurd rfl h
  | append_singleton ys c ih =>
    intro hne hall hhead
    rw [List.all_append] at hall
    rw [Bool.and_eq_true] at hall
    obtain ⟨hys, hc⟩ := hall
    have hcd : isDig c = true := by simpa using hc
    cases ys with
    | nil =>
      have h0 : c ≠ '0' := by simpa using hhead
      have h9 : dval c < 10 := dval_lt_ten c hcd
      simp only [List.nil_append]
      rw [digitsToNat_one, natRepr_small (dval c) h9, digitChar_dval c hcd]
    | cons y0 yt =>
      have hhead2 : (y0 :: yt).headD 'x' ≠ '0' := by simpa using hhead
      have hy0 : isDig y0 = true := by
        simp only [List.all_cons, Bool.and_eq_true] at hys
        exact hys.1
      have hpos : 1 ≤ digitsToNat (y0 :: yt) :=
        digitsToNat_pos y0 yt hy0 (by simpa using hhead2)
      have h9 : dval c < 10 := dval_lt_ten c hcd
      rw [digitsToNat_append_digit]
      have h10 : 10 ≤ 10 * digitsToNat (y0 :: yt) + dval c := by omega
      rw [natRepr_ge10 _ h10]
      have hdiv : (10 * digitsToNat (y0 :: yt) + dval c) / 10 =
          digitsToNat (y0 :: yt) := by omega
      have hmod : (10 * digitsToNat (y0 :: yt) + dval c) % 10 = dval c := by
        omega
      rw [hdiv, hmod, digitChar_dval c hcd]
      rw [ih (by simp) hys (by simpa using hhead2)]

/-- Length of the decimal representation: one digit. -/
theorem natRepr_len_one (m : Nat) (h : m < 10) : (natRepr m).length = 1 := by
  rw [natRepr_small m h]; rfl

/-- Length of the decimal representation: two digits. -/
theorem natRepr_len_two (m : Nat) (h1 : 10 ≤ m) (h2 : m ≤ 99) :
    (natRepr m).length = 2 := by
  rw [natRepr_ge10 m h1, natRepr_small (m / 10) (by omega)]
  rfl

/-- `%02d` output is made of ASCII digits. -/
theorem pad2_digits (m : Nat) : (pad2 m).all isDig = true := by
  unfold pad2
  split
  · simp only [List.all_cons, Bool.and_eq_true]
    exact ⟨by decide, natRepr_digits m⟩
  · exact natRepr_digits m

/-- `%02d` output has exactly two characters for values up to 99. -/
theorem pad2_len (m : Nat) (h : m ≤ 99) : (pad2 m).length = 2 := by
  unfold pad2
  split
  · rename_i hlt
    simp [natRepr_len_one m hlt]
  · rename_i hge
    exact natRepr_len_two m (by omega) h

/-- `int` inverts `%02d` output. -/
theorem digitsToNat_pad2 (m : Nat) : digitsToNat (pad2 m) = m := by
  unfold pad2
  split
  · rw [show digitsToNat ('0' :: natRepr m) = digitsToNat (natRepr m) from rfl]
    exact digitsToNat_natRepr m
  · exact digitsToNat_natRepr m


/-! ### Inverting `splitDash` and the matchers -/

/-- `joinDash` inverts `splitDash`. -/
theorem joinDash_splitDash (cs : List Char) : joinDash (splitDash cs) = cs := by
  induction cs with
  | nil => rfl
  | cons c rest ih =>
    simp only [splitDash]
    split
    · rename_i hc
      subst hc
      cases hp : splitDash rest with
      | nil => exact absurd hp (splitDash_ne_nil rest)
      | cons ph pt =>
        rw [hp] at ih
        show '-' :: joinDash (ph :: pt) = '-' :: rest
        rw [ih]
    · cases hp : splitDash rest with
      | nil => exact absurd hp (splitDash_ne_nil rest)
      | cons ph pt =>
        rw [hp] at ih
        cases pt with
        | nil =>
          show c :: ph = c :: rest
          rw [show joinDash [ph] = ph from rfl] at ih
          rw [ih]
        | cons t1 t2 =>
          show (c :: ph) ++ '-' :: joinDash (t1 :: t2) = c :: rest
          rw [List.cons_append]
          rw [show ph ++ '-' :: joinDash (t1 :: t2) =
            joinDash (ph :: t1 :: t2) from rfl]
          rw [ih]

/-- A dash-free list is a single segment. -/
theorem splitDash_no_dash (xs : List Char) (h : ∀ c ∈ xs, c ≠ '-') :
    splitDash xs = [xs] := by
  induction xs with
  | nil => rfl
  | cons c t ih =>
    simp only [splitDash]
    rw [if_neg (h c (by simp))]
    rw [ih (fun d hd => h d (by simp [hd]))]

/-- Splitting at the first dash after a dash-free part. -/
theorem splitDash_append (xs ys : List Char) (h : ∀ c ∈ xs, c ≠ '-') :
    splitDash (xs ++ '-' :: ys) = xs :: splitDash ys := by
  induction xs with
  | nil => simp [splitDash]
  | cons c t ih =>
    rw [List.cons_append]
    simp only [splitDash]
    rw [if_neg (h c (by simp))]
    rw [ih (fun d hd => h d (by simp [hd]))]

/-- `%02d` output coincides with the spec's zero-padding of the original
segment, for any `\d{1,2}` segment of positive value. -/
theorem pad2_eq_padSeg (seg : List Char) (h : segOk seg = true)
    (hpos : 1 ≤ digitsToNat seg) :
    pad2 (digitsToNat seg) = padSeg seg := by
  simp only [segOk, Bool.and_eq_true, decide_eq_true_eq] at h
  obtain ⟨⟨hl1, hl2⟩, hall⟩ := h
  match seg, hl1, hl2 with
  | [c], _, _ =>
    have hcd : isDig c = true := by simpa using hall
    have h9 : dval c < 10 := dval_lt_ten c hcd
    rw [digitsToNat_one] at hpos ⊢
    rw [pad2, if_pos h9, natRepr_small (dval c) h9, digitChar_dval c hcd]
    rfl
  | [c1, c2], _, _ =>
    simp only [List.all_cons, List.all_nil, Bool.and_eq_true] at hall
    obtain ⟨h1, h2, -⟩ := hall
    have h91 : dval c1 < 10 := dval_lt_ten c1 h1
    have h92 : dval c2 < 10 := dval_lt_ten c2 h2
    rw [digitsToNat_two] at hpos ⊢
    by_cases hz : dval c1 = 0
    · have hc1 : c1 = '0' := by
        rw [← digitChar_dval c1 h1, hz]
        decide
      rw [hz]
      have hv2 : 1 ≤ dval c2 := by omega
      rw [show 10 * 0 + dval c2 = dval c2 from by omega]
      rw [pad2, if_pos h92, natRepr_small (dval c2) h92, digitChar_dval c2 h2]
      rw [hc1]
      rfl
    · have h10 : 10 ≤ 10 * dval c1 + dval c2 := by omega
      rw [pad2, if_neg (by omega)]
      rw [natRepr_ge10 _ h10]
      have hdiv : (10 * dval c1 + dval c2) / 10 = dval c1 := by omega
      have hmod : (10 * dval c1 + dval c2) % 10 = dval c2 := by omega
      rw [hdiv, hmod, natRepr_small (dval c1) h91,
        digitChar_dval c1 h1, digitChar_dval c2 h2]
      rfl

/-- Full inversion of a successful plain-pattern match. -/
theorem plainMatch_inv (s : String) (y : List Char) (mo dy : Option (List Char))
    (h : plainMatch s = some (y, mo, dy)) :
    yearOk y = true ∧
      ((mo = none ∧ dy = none ∧ splitDash s.toList = [y]) ∨
       (∃ m, mo = some m ∧ dy = none ∧ segOk m = true ∧
         splitDash s.toList = [y, m]) ∨
       (∃ m d2, mo = some m ∧ dy = some d2 ∧ segOk m = true ∧
         segOk d2 = true ∧ splitDash s.toList = [y, m, d2])) := by
  unfold plainMatch at h
  split at h
  · split at h
    · rename_i y1 heq hc
      simp only [Option.some.injEq, Prod.mk.injEq] at h
      obtain ⟨rfl, hmo, hdy⟩ := h
      exact ⟨hc, Or.inl ⟨hmo.symm, hdy.symm, heq⟩⟩
    · exact absurd h (by simp)
  · split at h
    · rename_i y1 m1 heq hc
      simp only [Option.some.injEq, Prod.mk.injEq] at h
      obtain ⟨rfl, hmo, hdy⟩ := h
      rw [Bool.and_eq_true] at hc
      exact ⟨hc.1, Or.inr (Or.inl ⟨m1, hmo.symm, hdy.symm, hc.2, heq⟩)⟩
    · exact absurd h (by simp)
  · split at h
    · rename_i y1 m1 d1 heq hc
      simp only [Option.some.injEq, Prod.mk.injEq] at h
      obtain ⟨rfl, hmo, hdy⟩ := h
      rw [Bool.and_eq_true, Bool.and_eq_true] at hc
      exact ⟨hc.1.1,
        Or.inr (Or.inr ⟨m1, d1, hmo.symm, hdy.symm, hc.1.2, hc.2, heq⟩)⟩
    · exact absurd h (by simp)
  · exact absurd h (by simp)

/-- A string starting with an ASCII digit cannot match the circa pattern. -/
theorem circaMatch_digit_start (s : String) (c : Char) (t : List Char)
    (hs : s.toList = c :: t) (hd : isDig c = true) : circaMatch s = none := by
  cases h : circaMatch s with
  | none => rfl
  | some y =>
    obtain ⟨⟨c2, t2, hs2, hc⟩, -, -⟩ := circaMatch_inv s y h
    rw [hs] at hs2
    injection hs2 with e1 e2
    rw [← e1] at hc
    rw [lowerA_isDig c hd] at hc
    subst hc
    exact absurd hd (by decide)

/-- Two `PartialDate`s with the same stored date and precision are equal. -/
theorem partialDate_eq (a b : PartialDate) (h1 : a.date = b.date)
    (h2 : a.precision = b.precision) : a = b := by
  cases a with
  | mk ad ap =>
    cases b with
    | mk bd bp =>
      simp only at h1 h2
      rw [h1, h2]

/-- Closed form of the date-argument constructor. -/
theorem fromDate_eq (d : Date) (v : Int) :
    PartialDate.fromDate d v = ⟨d, coercePrecision v⟩ :=
  partialDate_eq _ _ (fromDate_date d v) (fromDate_precision d v)

/-- The YEAR branch of `format` with default templates. -/
theorem format_year (d : Date) :
    PartialDate.format ⟨d, YEAR⟩ = ⟨natRepr d.year⟩ := rfl

/-- The MONTH branch of `format` with default templates. -/
theorem format_month (d : Date) :
    PartialDate.format ⟨d, MONTH⟩ =
      ⟨natRepr d.year ++ '-' :: pad2 d.month⟩ := by
  unfold PartialDate.format
  dsimp only
  rw [if_neg (by decide : ¬(MONTH = YEAR)), if_pos rfl]

/-- The CIRCA branch of `format` with default templates. -/
theorem format_circa (d : Date) :
    PartialDate.format ⟨d, CIRCA⟩ = ⟨'c' :: '.' :: ' ' :: natRepr d.year⟩ := by
  unfold PartialDate.format
  dsimp only
  rw [if_neg (by decide : ¬(CIRCA = YEAR)),
    if_neg (by decide : ¬(CIRCA = MONTH)), if_pos rfl]

/-- The DAY (fallback) branch of `format` with default templates. -/
theorem format_day (d : Date) :
    PartialDate.format ⟨d, DAY⟩ =
      ⟨natRepr d.year ++ '-' :: pad2 d.month ++ '-' :: pad2 d.day⟩ := by
  unfold PartialDate.format
  dsimp only
  rw [if_neg (by decide : ¬(DAY = YEAR)), if_neg (by decide : ¬(DAY = MONTH)),
    if_neg (by decide : ¬(DAY = CIRCA))]


/-- Claim C4 (counterexample): `"circa 2020"` is an accepted wire-format
string, its canonical form under the claimed digit-padding canonicalization
is itself, but formatting the parsed value yields `"c. 2020"`. -/
theorem C4_counterexample :
    PartialDate.fromString "circa 2020" = Except.ok ⟨⟨2020, 1, 1⟩, 3⟩ ∧
    PartialDate.format ⟨⟨2020, 1, 1⟩, 3⟩ = "c. 2020" ∧
    canonical "circa 2020" = "circa 2020" ∧
    ("c. 2020" : String) ≠ "circa 2020" :=
  ⟨rfl, rfl, rfl, by decide⟩

/-- Claim C4 (amended): for every accepted wire-format string whose year
digits carry no leading zero, formatting the parsed value with the default
templates yields the canonical form of the string, where plain-pattern
strings are canonicalized by zero-padding the month and day segments to two
digits and circa-form strings are additionally canonicalized to the
`c. YYYY` spelling of the prefix. -/
theorem C4_theorem (s : String) (p : PartialDate)
    (h : PartialDate.fromString s = Except.ok p)
    (hz : noLeadZeroYear s = true) :
    PartialDate.format p =
      (match circaMatch s with
       | some y => String.mk ('c' :: '.' :: ' ' :: y)
       | none => canonical s) := by
  unfold PartialDate.fromString at h
  cases hpd : parse_date s with
  | error e => rw [hpd] at h; exact absurd h (by simp)
  | ok r =>
    obtain ⟨d, pr⟩ := r
    rw [hpd] at h
    injection h with h1
    rw [fromDate_eq] at h1
    cases hcm : circaMatch s with
    | some y =>
      simp only [hcm]
      simp only [parse_date, hcm] at hpd
      cases hmk : mkDate (digitsToNat y) 1 1 with
      | error e => rw [hmk] at hpd; exact absurd hpd (by simp)
      | ok dd =>
        rw [hmk] at hpd
        simp only [Except.ok.injEq, Prod.mk.injEq] at hpd
        obtain ⟨hdeq, hpreq⟩ := hpd
        obtain ⟨hdd, hvv⟩ := mkDate_ok _ _ _ dd hmk
        have hp2 : p = ⟨⟨digitsToNat y, 1, 1⟩, CIRCA⟩ := by
          rw [← h1, ← hpreq, hdeq.symm.trans hdd]
          rfl
        obtain ⟨-, hyne, hyd⟩ := circaMatch_inv s y hcm
        have hz2 : y.headD 'x' ≠ '0' := by
          simp only [noLeadZeroYear, hcm] at hz
          exact bne_iff_ne.mp hz
        rw [hp2, format_circa]
        dsimp only
        rw [natRepr_digitsToNat y hyne hyd hz2]
    | none =>
      simp only [hcm]
      simp only [parse_date, hcm] at hpd
      cases hpm : plainMatch s with
      | none => rw [hpm] at hpd; exact absurd hpd (by simp)
      | some tr =>
        obtain ⟨y, mo, dy⟩ := tr
        simp only [hpm] at hpd
        cases hmk : mkDate (digitsToNat y) (groupVal mo) (groupVal dy) with
        | error e => rw [hmk] at hpd; exact absurd hpd (by simp)
        | ok dd =>
          rw [hmk] at hpd
          simp only [Except.ok.injEq, Prod.mk.injEq] at hpd
          obtain ⟨hdeq, hpreq⟩ := hpd
          obtain ⟨hdd, hvv⟩ := mkDate_ok _ _ _ dd hmk
          have hd2 : d = ⟨digitsToNat y, groupVal mo, groupVal dy⟩ :=
            hdeq.symm.trans hdd
          obtain ⟨hyok, hinv⟩ := plainMatch_inv s y mo dy hpm
          have hyne : y ≠ [] := by
            intro he
            rw [he] at hyok
            simp [yearOk] at hyok
          have hyd : y.all isDig = true := by
            rw [yearOk, Bool.and_eq_true] at hyok
            exact hyok.2
          rw [Date.validB] at hvv
          simp only [Bool.and_eq_true, decide_eq_true_eq] at hvv
          obtain ⟨⟨⟨⟨⟨hvy1, hvy2⟩, hvm1⟩, hvm2⟩, hvd1⟩, hvd2⟩ := hvv
          rcases hinv with ⟨hm0, hd0, hsp⟩ | ⟨m, hm0, hd0, hsm, hsp⟩ |
            ⟨m, d2, hm0, hd0, hsm, hsd2, hsp⟩
          · subst hm0
            subst hd0
            have hpr2 : pr = YEAR := by simpa using hpreq.symm
            have hp2 : p = ⟨⟨digitsToNat y, 1, 1⟩, YEAR⟩ := by
              rw [← h1, hpr2, hd2]
              rfl
            have hz2 : y.headD 'x' ≠ '0' := by
              simp only [noLeadZeroYear, hcm, hsp, List.headD_cons] at hz
              exact bne_iff_ne.mp hz
            rw [hp2, format_year]
            dsimp only
            rw [natRepr_digitsToNat y hyne hyd hz2]
            have hjoin := joinDash_splitDash s.toList
            rw [hsp] at hjoin
            have hy2 : y = s.toList := hjoin
            simp only [canonical, hsp]
            rw [hy2]
            rfl
          · subst hm0
            subst hd0
            have hpr2 : pr = MONTH := by simpa using hpreq.symm
            have hp2 : p = ⟨⟨digitsToNat y, digitsToNat m, 1⟩, MONTH⟩ := by
              rw [← h1, hpr2, hd2]
              rfl
            have hz2 : y.headD 'x' ≠ '0' := by
              simp only [noLeadZeroYear, hcm, hsp, List.headD_cons] at hz
              exact bne_iff_ne.mp hz
            have hmpos : 1 ≤ digitsToNat m := hvm1
            rw [hp2, format_month]
            dsimp only
            rw [natRepr_digitsToNat y hyne hyd hz2, pad2_eq_padSeg m hsm hmpos]
            simp only [canonical, hsp]
          · subst hm0
            subst hd0
            have hpr2 : pr = DAY := by simpa using hpreq.symm
            have hp2 :
                p = ⟨⟨digitsToNat y, digitsToNat m, digitsToNat d2⟩, DAY⟩ := by
              rw [← h1, hpr2, hd2]
              rfl
            have hz2 : y.headD 'x' ≠ '0' := by
              simp only [noLeadZeroYear, hcm, hsp, List.headD_cons] at hz
              exact bne_iff_ne.mp hz
            have hmpos : 1 ≤ digitsToNat m := hvm1
            have hdpos : 1 ≤ digitsToNat d2 := hvd1
            rw [hp2, format_day]
            dsimp only
            rw [natRepr_digitsToNat y hyne hyd hz2, pad2_eq_padSeg m hsm hmpos,
              pad2_eq_padSeg d2 hsd2 hdpos]
            simp only [canonical, hsp]

/-- Claim C4 (witness): `"1999-1"` parses to 1999-01-01 at MONTH precision
and formats back to its canonical form `"1999-01"`. -/
theorem C4_witness :
    PartialDate.format ⟨⟨1999, 1, 1⟩, 1⟩ =
      (match circaMatch "1999-1" with
       | some y => String.mk ('c' :: '.' :: ' ' :: y)
       | none => canonical "1999-1") :=
  C4_theorem "1999-1" ⟨⟨1999, 1, 1⟩, 1⟩ rfl (by decide)


/-! ### Matching the formatted output -/

/-- Every month has at least one day. -/
theorem daysInMonth_pos (y m : Nat) : 1 ≤ daysInMonth y m := by
  unfold daysInMonth
  split
  · split <;> omega
  · split <;> omega

/-- Every month has at most 31 days. -/
theorem daysInMonth_le (y m : Nat) : daysInMonth y m ≤ 31 := by
  unfold daysInMonth
  split
  · split <;> omega
  · split <;> omega

/-- The plain pattern accepts a lone `\d+` segment. -/
theorem plainMatch_mk_one (ys : List Char) (hy : yearOk ys = true)
    (hynd : ∀ c ∈ ys, c ≠ '-') :
    plainMatch ⟨ys⟩ = some (ys, none, none) := by
  unfold plainMatch
  rw [show (String.mk ys).toList = ys from rfl]
  rw [splitDash_no_dash ys hynd]
  simp [hy]

/-- The plain pattern accepts a `\d+` segment and one `\d{1,2}` segment. -/
theorem plainMatch_mk_two (ys ms : List Char) (hy : yearOk ys = true)
    (hm : segOk ms = true) (hynd : ∀ c ∈ ys, c ≠ '-')
    (hmnd : ∀ c ∈ ms, c ≠ '-') :
    plainMatch ⟨ys ++ '-' :: ms⟩ = some (ys, some ms, none) := by
  unfold plainMatch
  rw [show (String.mk (ys ++ '-' :: ms)).toList = ys ++ '-' :: ms from rfl]
  rw [splitDash_append ys ms hynd, splitDash_no_dash ms hmnd]
  simp [hy, hm]

/-- The plain pattern accepts a `\d+` segment and two `\d{1,2}` segments. -/
theorem plainMatch_mk_three (ys ms ds : List Char) (hy : yearOk ys = true)
    (hm : segOk ms = true) (hd : segOk ds = true) (hynd : ∀ c ∈ ys, c ≠ '-')
    (hmnd : ∀ c ∈ ms, c ≠ '-') (hdnd : ∀ c ∈ ds, c ≠ '-') :
    plainMatch ⟨ys ++ '-' :: ms ++ '-' :: ds⟩ =
      some (ys, some ms, some ds) := by
  unfold plainMatch
  rw [show (String.mk (ys ++ '-' :: ms ++ '-' :: ds)).toList =
    (ys ++ '-' :: ms) ++ '-' :: ds from rfl]
  rw [List.append_assoc, List.cons_append]
  rw [splitDash_append ys (ms ++ '-' :: ds) hynd, splitDash_append ms ds hmnd,
    splitDash_no_dash ds hdnd]
  simp [hy, hm, hd]

/-- The circa pattern accepts the default circa template output `c. ` followed
by digits, returning those digits as the year group. -/
theorem circaMatch_mk_circa (ds : List Char) (hne : ds ≠ [])
    (hd : ds.all isDig = true) :
    circaMatch ⟨'c' :: '.' :: ' ' :: ds⟩ = some ds := by
  have hca : circaAtt ['c', '.'] ('c' :: '.' :: ' ' :: ds) = some ds := by
    have hstrip : stripPre ['c', '.'] ('c' :: '.' :: ' ' :: ds) =
        some (' ' :: ds) := rfl
    have hdw : List.dropWhile isSpace (' ' :: ds) = ds := by
      rw [List.dropWhile_cons]
      simp only [show isSpace ' ' = true from rfl, if_true]
      exact dropWhile_digits ds hd
    have hcond : ((ds.length != 0) && ds.all isDig) = true := by
      rw [Bool.and_eq_true, bne_iff_ne]
      exact ⟨fun hc => hne (List.length_eq_zero.mp hc), hd⟩
    simp only [circaAtt, hstrip, circaTail, hdw, hcond, if_true]
  have hmap : (String.mk ('c' :: '.' :: ' ' :: ds)).toList.map lowerA =
      'c' :: '.' :: ' ' :: ds := by
    show 'c' :: '.' :: ' ' :: ds.map lowerA = 'c' :: '.' :: ' ' :: ds
    rw [map_lowerA_digits ds hd]
  simp only [circaMatch, hmap]
  rw [show circaAtt ['c', 'i', 'r', 'c', 'a'] ('c' :: '.' :: ' ' :: ds) = none
    from rfl]
  simp only [Option.orElse]
  rw [hca]

/-- Claim C5 (counterexample): the constructor-built value
`PartialDate(2020-06-15, MONTH)` (whose day the setter fails to normalize,
see C3) formats as `"2020-06"`, which re-parses to the DIFFERENT value
`PartialDate(2020-06-01, MONTH)`. -/
theorem C5_counterexample :
    PartialDate.fromDate ⟨2020, 6, 15⟩ MONTH = ⟨⟨2020, 6, 15⟩, 1⟩ ∧
    PartialDate.fromString (PartialDate.format ⟨⟨2020, 6, 15⟩, 1⟩) =
      Except.ok ⟨⟨2020, 6, 1⟩, 1⟩ ∧
    PartialDate.beq ⟨⟨2020, 6, 1⟩, 1⟩ ⟨⟨2020, 6, 15⟩, 1⟩ = false :=
  ⟨rfl, rfl, by decide⟩

/-- Claim C5 (amended): constructing a `PartialDate` from another's default
string representation yields an equal value whenever the source value's
stored date satisfies the normalization the precision setter was meant to
enforce (day 1 under MONTH, month and day 1 under YEAR/CIRCA) — in
particular for every string-parsed value; it fails for the constructor-built
values whose date the setter left unnormalized. -/
theorem C5_theorem (p : PartialDate) (hv : p.date.validB = true)
    (hp : p.precision = YEAR ∨ p.precision = MONTH ∨ p.precision = DAY ∨
      p.precision = CIRCA)
    (hn : normalizedB p = true) :
    PartialDate.fromString p.format = Except.ok p := by
  obtain ⟨⟨py, pm, pd2⟩, pp⟩ := p
  dsimp only at hv hp hn ⊢
  have hvc := hv
  rw [Date.validB] at hvc
  simp only [Bool.and_eq_true, decide_eq_true_eq] at hvc
  obtain ⟨⟨⟨⟨⟨hy1, hy2⟩, hm1⟩, hm2⟩, hd1⟩, hd2v⟩ := hvc
  obtain ⟨c, t, hct⟩ : ∃ c t, natRepr py = c :: t := by
    cases hh : natRepr py with
    | nil => exact absurd hh (natRepr_ne_nil py)
    | cons c t => exact ⟨c, t, rfl⟩
  have hcd : isDig c = true := by
    have hall := natRepr_digits py
    rw [hct, List.all_cons, Bool.and_eq_true] at hall
    exact hall.1
  have hyok : yearOk (natRepr py) = true := by
    rw [yearOk, Bool.and_eq_true, decide_eq_true_eq]
    exact ⟨by rw [hct]; simp, natRepr_digits py⟩
  have hynd : ∀ ch ∈ natRepr py, ch ≠ '-' :=
    all_isDig_no_dash _ (natRepr_digits py)
  rcases hp with hp0 | hp0 | hp0 | hp0
  · -- YEAR
    subst hp0
    rw [normalizedB] at hn
    dsimp only at hn
    rw [if_neg (by decide : ¬(YEAR = MONTH)),
      if_pos (Or.inl rfl : YEAR = YEAR ∨ YEAR = CIRCA),
      Bool.and_eq_true, decide_eq_true_eq, decide_eq_true_eq] at hn
    obtain ⟨hnm, hnd⟩ := hn
    subst hnm
    subst hnd
    rw [format_year]
    dsimp only
    have hcm : circaMatch ⟨natRepr py⟩ = none :=
      circaMatch_digit_start ⟨natRepr py⟩ c t
        (by rw [show (String.mk (natRepr py)).toList = natRepr py from rfl,
          hct]) hcd
    have hpm2 : plainMatch ⟨natRepr py⟩ = some (natRepr py, none, none) :=
      plainMatch_mk_one (natRepr py) hyok hynd
    have hmk : mkDate py 1 1 = Except.ok ⟨py, 1, 1⟩ := by
      rw [mkDate, if_pos hv]
    simp only [PartialDate.fromString, parse_date, hcm, hpm2, groupVal,
      digitsToNat_natRepr py, hmk, Option.isSome_none, Bool.false_eq_true,
      if_false]
    rw [fromDate_eq]
    rfl
  · -- MONTH
    subst hp0
    rw [normalizedB] at hn
    dsimp only at hn
    rw [if_pos rfl, decide_eq_true_eq] at hn
    subst hn
    rw [format_month]
    dsimp only
    have hsegm : segOk (pad2 pm) = true := by
      rw [segOk, Bool.and_eq_true, Bool.and_eq_true, decide_eq_true_eq,
        decide_eq_true_eq, pad2_len pm (by omega)]
      exact ⟨⟨by omega, by omega⟩, pad2_digits pm⟩
    have hcm : circaMatch ⟨natRepr py ++ '-' :: pad2 pm⟩ = none :=
      circaMatch_digit_start _ c (t ++ '-' :: pad2 pm)
        (by rw [show (String.mk (natRepr py ++ '-' :: pad2 pm)).toList =
          natRepr py ++ '-' :: pad2 pm from rfl, hct, List.cons_append]) hcd
    have hpm2 : plainMatch ⟨natRepr py ++ '-' :: pad2 pm⟩ =
        some (natRepr py, some (pad2 pm), none) :=
      plainMatch_mk_two (natRepr py) (pad2 pm) hyok hsegm hynd
        (all_isDig_no_dash _ (pad2_digits pm))
    have hmk : mkDate py pm 1 = Except.ok ⟨py, pm, 1⟩ := by
      rw [mkDate, if_pos hv]
    simp only [PartialDate.fromString, parse_date, hcm, hpm2, groupVal,
      digitsToNat_natRepr py, digitsToNat_pad2, hmk, Option.isSome_none,
      Option.isSome_some, Bool.false_eq_true, if_false, if_true]
    rw [fromDate_eq]
    rfl
  · -- DAY
    subst hp0
    rw [format_day]
    dsimp only
    have hsegm : segOk (pad2 pm) = true := by
      rw [segOk, Bool.and_eq_true, Bool.and_eq_true, decide_eq_true_eq,
        decide_eq_true_eq, pad2_len pm (by omega)]
      exact ⟨⟨by omega, by omega⟩, pad2_digits pm⟩
    have hle31 : pd2 ≤ 31 := le_trans hd2v (daysInMonth_le py pm)
    have hsegd : segOk (pad2 pd2) = true := by
      rw [segOk, Bool.and_eq_true, Bool.and_eq_true, decide_eq_true_eq,
        decide_eq_true_eq, pad2_len pd2 (by omega)]
      exact ⟨⟨by omega, by omega⟩, pad2_digits pd2⟩
    have hcm : circaMatch ⟨natRepr py ++ '-' :: pad2 pm ++ '-' :: pad2 pd2⟩ =
        none :=
      circaMatch_digit_start _ c (t ++ '-' :: pad2 pm ++ '-' :: pad2 pd2)
        (by rw [show (String.mk
            (natRepr py ++ '-' :: pad2 pm ++ '-' :: pad2 pd2)).toList =
          natRepr py ++ '-' :: pad2 pm ++ '-' :: pad2 pd2 from rfl, hct,
          List.cons_append, List.cons_append]) hcd
    have hpm2 : plainMatch ⟨natRepr py ++ '-' :: pad2 pm ++ '-' :: pad2 pd2⟩ =
        some (natRepr py, some (pad2 pm), some (pad2 pd2)) :=
      plainMatch_mk_three (natRepr py) (pad2 pm) (pad2 pd2) hyok hsegm hsegd
        hynd (all_isDig_no_dash _ (pad2_digits pm))
        (all_isDig_no_dash _ (pad2_digits pd2))
    have hmk : mkDate py pm pd2 = Except.ok ⟨py, pm, pd2⟩ := by
      rw [mkDate, if_pos hv]
    simp only [PartialDate.fromString, parse_date, hcm, hpm2, groupVal,
      digitsToNat_natRepr py, digitsToNat_pad2, hmk, Option.isSome_some,
      if_true]
    rw [fromDate_eq]
    rfl
  · -- CIRCA
    subst hp0
    rw [normalizedB] at hn
    dsimp only at hn
    rw [if_neg (by decide : ¬(CIRCA = MONTH)),
      if_pos (Or.inr rfl : CIRCA = YEAR ∨ CIRCA = CIRCA),
      Bool.and_eq_true, decide_eq_true_eq, decide_eq_true_eq] at hn
    obtain ⟨hnm, hnd⟩ := hn
    subst hnm
    subst hnd
    rw [format_circa]
    dsimp only
    have hcm : circaMatch ⟨'c' :: '.' :: ' ' :: natRepr py⟩ =
        some (natRepr py) :=
      circaMatch_mk_circa (natRepr py) (natRepr_ne_nil py) (natRepr_digits py)
    have hmk : mkDate py 1 1 = Except.ok ⟨py, 1, 1⟩ := by
      rw [mkDate, if_pos hv]
    simp only [PartialDate.fromString, parse_date, hcm,
      digitsToNat_natRepr py, hmk]
    rw [fromDate_eq]
    rfl

/-- Claim C5 (witness): `PartialDate(2020-01-01, CIRCA)` round-trips through
its default representation `"c. 2020"`. -/
theorem C5_witness :
    PartialDate.fromString (PartialDate.format ⟨⟨2020, 1, 1⟩, 3⟩) =
      Except.ok ⟨⟨2020, 1, 1⟩, 3⟩ :=
  C5_theorem ⟨⟨2020, 1, 1⟩, 3⟩ (by decide) (by decide) (by decide)

end PartialDateSpec
